import Mathlib

/-!
Shallow embedding of the `equilibrium` control framework core: the
`Scheduler` pending/fired event bookkeeping, the `Threshold`,
`BidirectionalThreshold` and `TimedOutput` controller state machines, and
the `ControllerGroup` aggregator.

Modelling conventions:
* `chrono::DateTime<Utc>` instants and `chrono::Duration` spans are embedded
  as `Int` seconds (since the Unix epoch for instants).  All timestamps the
  code manipulates in the verified scenarios are whole seconds, and the
  `TimedOutput` scheduling logic zeroes the sub-second component with
  `with_nanosecond(0)`.
* `f32` sensor values are embedded as `Rat`; the verified comparisons only
  involve values on which `f32` arithmetic is exact.
* Rust panics (`unwrap` on a parse failure, `panic!` on an unexpected
  action) are embedded as `none` results: a function that may abort returns
  an `Option`.
* The impure input callback (`Fn() -> String`) is embedded as an oracle
  sequence `Nat → String` together with a call counter; the output callback
  (`FnMut(bool)`) only affects the external world, so only the cached
  `Option Bool` state is tracked.
-/

namespace Equilibrium

/-- Embedding of `types/action.rs`: the closed enumeration of schedulable
IO intents. -/
inductive Action where
  | Read : Action
  | On : Action
  | Off : Action
deriving DecidableEq, Repr

/-- Embedding of `types/event.rs`: a scheduled `Action` bound to a
timestamp, optionally annotated with a sampled value. -/
structure Event where
  action : Action
  value : Option String
  timestamp : Int
deriving DecidableEq, Repr

namespace Event

/-- Embedding of `Event::new`: fresh events carry no value. -/
def new (action : Action) (timestamp : Int) : Event :=
  { action := action, value := none, timestamp := timestamp }

/-- Embedding of `Event::should_execute`: returns true unless the event
timestamp is strictly in the future. -/
def should_execute (e : Event) (time : Int) : Bool :=
  if e.timestamp > time then false else true

/-- Embedding of `Event::get_action`. -/
def get_action (e : Event) : Action := e.action

/-- Embedding of `Event::get_timestamp`. -/
def get_timestamp (e : Event) : Int := e.timestamp

end Event

/-- Embedding of `scheduler.rs`: insertion-ordered pending events
(`future_events`) and the fired history (`events`). -/
structure Scheduler where
  future_events : List Event
  events : List Event
deriving DecidableEq, Repr

namespace Scheduler

/-- Embedding of `Scheduler::new`. -/
def new : Scheduler := { future_events := [], events := [] }

/-- Embedding of `Scheduler::has_future_events`. -/
def has_future_events (s : Scheduler) : Bool := !s.future_events.isEmpty

/-- Embedding of `Scheduler::schedule_on`: append an `On` event. -/
def schedule_on (s : Scheduler) (timestamp : Int) : Scheduler :=
  { s with future_events := s.future_events ++ [Event.new Action.On timestamp] }

/-- Embedding of `Scheduler::schedule_off`: append an `Off` event. -/
def schedule_off (s : Scheduler) (timestamp : Int) : Scheduler :=
  { s with future_events := s.future_events ++ [Event.new Action.Off timestamp] }

/-- Embedding of `Scheduler::schedule_read`: append a `Read` event. -/
def schedule_read (s : Scheduler) (timestamp : Int) : Scheduler :=
  { s with future_events := s.future_events ++ [Event.new Action.Read timestamp] }

/-- Helper embedding the body of `Scheduler::attempt_execution`: the
`iter().position(..)` scan followed by `remove(index)`, returning the first
due event together with the remaining pending list. -/
def removeFirstDue : List Event → Int → Option (Event × List Event)
  | [], _ => none
  | e :: rest, time =>
    if e.should_execute time then some (e, rest)
    else
      match removeFirstDue rest time with
      | some (f, rest2) => some (f, e :: rest2)
      | none => none

/-- Embedding of `Scheduler::attempt_execution`: remove the first due
pending event, push it onto the fired history, and return it; if no
pending event is due, return `none` and leave the state unchanged. -/
def attempt_execution (s : Scheduler) (time : Int) : Scheduler × Option Event :=
  match removeFirstDue s.future_events time with
  | some (e, rest) =>
    ({ future_events := rest, events := s.events ++ [e] }, some e)
  | none => (s, none)

end Scheduler

/-- Digit-string value: `foldl` over decimal digits. -/
def digitsVal (l : List Char) : Nat :=
  l.foldl (fun acc c => 10 * acc + (c.toNat - 48)) 0

/-- Embedding of `str::parse::<f32>()` restricted to plain decimal
literals (optional sign, integer digits, optional fractional part), the
only shapes of sensor text this repository manipulates; any other string
fails to parse.  The parsed magnitude is represented exactly as a `Rat`. -/
def parseF32 (s : String) : Option Rat :=
  let signed : Bool × List Char :=
    match s.data with
    | '-' :: rest => (true, rest)
    | '+' :: rest => (false, rest)
    | l => (false, l)
  let intPart := signed.2.takeWhile Char.isDigit
  let rest := signed.2.dropWhile Char.isDigit
  let mag : Option (Nat × Nat) :=
    match rest with
    | [] => if intPart.isEmpty then none else some (digitsVal intPart, 0)
    | '.' :: frac =>
      if frac.all Char.isDigit && !(intPart.isEmpty && frac.isEmpty) then
        some (digitsVal intPart * 10 ^ frac.length + digitsVal frac, frac.length)
      else none
    | _ => none
  match mag with
  | some (n, k) => some (mkRat (if signed.1 then -(n : Int) else (n : Int)) (10 ^ k))
  | none => none

/-- Embedding of `input.rs`: the impure read callback is an oracle
sequence indexed by the call counter; `state` caches the last read. -/
structure InputDev where
  callback : Nat → String
  calls : Nat
  state : Option String

namespace InputDev

/-- Embedding of `Input::new`. -/
def new (callback : Nat → String) : InputDev :=
  { callback := callback, calls := 0, state := none }

/-- Embedding of `Input::read`: run the callback, cache and return the
string. -/
def read (i : InputDev) : String × InputDev :=
  let s := i.callback i.calls
  (s, { i with calls := i.calls + 1, state := some s })

/-- Embedding of `Input::get_state`. -/
def get_state (i : InputDev) : Option String := i.state

end InputDev

/-- Embedding of `output.rs`: only the cached commanded state is tracked;
the callback acts on the external world. -/
structure OutputDev where
  state : Option Bool
deriving DecidableEq, Repr

namespace OutputDev

/-- Embedding of `Output::new` / `Output::default`: initial state is
unset. -/
def new : OutputDev := { state := none }

/-- Embedding of `Output::activate`. -/
def activate (o : OutputDev) : OutputDev := { o with state := some true }

/-- Embedding of `Output::deactivate`. -/
def deactivate (o : OutputDev) : OutputDev := { o with state := some false }

/-- Embedding of `Output::get_state`. -/
def get_state (o : OutputDev) : Option Bool := o.state

end OutputDev

/-- Embedding of `types/message.rs`: the logged record of a fired
transition. -/
structure Message where
  name : String
  content : String
  timestamp : Int
  read_state : Option String
deriving DecidableEq, Repr

namespace Message

/-- Embedding of `Message::new`. -/
def new (name content : String) (timestamp : Int) (read_state : Option String) : Message :=
  { name := name, content := content, timestamp := timestamp, read_state := read_state }

end Message

/-- Embedding of `controllers/threshold.rs`: single-threshold controller
state. -/
structure Threshold where
  name : Option String
  threshold : Rat
  input : InputDev
  output : OutputDev
  interval : Int
  schedule : Scheduler
  inverted : Bool

namespace Threshold

/-- Embedding of `Threshold::new_without_scheduled`. -/
def new_without_scheduled (threshold : Rat) (input : InputDev) (output : OutputDev)
    (interval : Int) : Threshold :=
  { name := none, threshold := threshold, input := input, output := output,
    schedule := Scheduler.new, interval := interval, inverted := false }

/-- Embedding of the builder `Threshold::set_inverted`. -/
def set_inverted (c : Threshold) : Threshold := { c with inverted := true }

/-- Embedding of the builder `Threshold::schedule_next` (with an explicit
reference time; the Rust default argument is `Utc::now()`). -/
def schedule_next (c : Threshold) (time : Int) : Threshold :=
  { c with schedule := c.schedule.schedule_read (time + c.interval) }

/-- Embedding of `Threshold::new` at an explicit first-read reference
time. -/
def new (threshold : Rat) (input : InputDev) (output : OutputDev) (interval : Int)
    (time : Int) : Threshold :=
  (new_without_scheduled threshold input output interval).schedule_next time

/-- Embedding of `Threshold::above_threshold`: read the input, parse it
as a number (`unwrap` on failure embeds as `none`), and compare strictly
against the threshold.  Returns the updated input cache alongside. -/
def above_threshold (c : Threshold) : Option (Bool × Threshold) :=
  let r := c.input.read
  match parseF32 r.1 with
  | some value => some (decide (value > c.threshold), { c with input := r.2 })
  | none => none

/-- Embedding of `Threshold::handle_above_threshold`. -/
def handle_above_threshold (c : Threshold) : Threshold :=
  match c.inverted with
  | true => { c with output := c.output.deactivate }
  | false => { c with output := c.output.activate }

/-- Embedding of `Threshold::handle_below_threshold`. -/
def handle_below_threshold (c : Threshold) : Threshold :=
  match c.inverted with
  | true => { c with output := c.output.activate }
  | false => { c with output := c.output.deactivate }

/-- Embedding of `<Threshold as Controller>::poll`.  A `none` result is a
panic (parse failure inside `above_threshold`, or an unexpected action). -/
def poll (c : Threshold) (time : Int) : Option (Threshold × Option Message) :=
  match c.schedule.attempt_execution time with
  | (sched2, some event) =>
    match event.get_action with
    | Action.Read =>
      let c1 : Threshold := { c with schedule := sched2 }
      match c1.above_threshold with
      | some (above, c2) =>
        let c3 := if above then c2.handle_above_threshold else c2.handle_below_threshold
        let msg := if above then "Above Threshold" else "Below Threshold"
        let c4 : Threshold := { c3 with schedule := c3.schedule.schedule_read (time + c3.interval) }
        some (c4, some (Message.new (c4.name.getD "") msg time c4.input.get_state))
      | none => none
    | _ => none
  | (_, none) => some (c, none)

end Threshold

/-- Embedding of the private `State` enum of
`controllers/bidirectional.rs`. -/
inductive State where
  | BelowThreshold : State
  | WithinTolerance : State
  | AboveThreshold : State
deriving DecidableEq, Repr

/-- Embedding of `controllers/bidirectional.rs`: two-output band
controller state. -/
structure BidirectionalThreshold where
  name : Option String
  threshold : Rat
  tolerance : Rat
  input : InputDev
  increase_output : OutputDev
  decrease_output : OutputDev
  interval : Int
  schedule : Scheduler

namespace BidirectionalThreshold

/-- Embedding of `BidirectionalThreshold::new`. -/
def new (threshold tolerance : Rat) (input : InputDev)
    (increase_output decrease_output : OutputDev) (interval : Int) : BidirectionalThreshold :=
  { name := none, threshold := threshold, tolerance := tolerance, input := input,
    increase_output := increase_output, decrease_output := decrease_output,
    interval := interval, schedule := Scheduler.new }

/-- Embedding of `BidirectionalThreshold::get_state`: read and parse the
input (`unwrap` embeds as `none`) and classify it against the tolerance
band.  Returns the updated input cache alongside. -/
def get_state (c : BidirectionalThreshold) : Option (State × BidirectionalThreshold) :=
  let r := c.input.read
  match parseF32 r.1 with
  | some value =>
    some
      (if value > c.threshold + c.tolerance then State.AboveThreshold
       else if value < c.threshold - c.tolerance then State.BelowThreshold
       else State.WithinTolerance,
       { c with input := r.2 })
  | none => none

/-- Embedding of `BidirectionalThreshold::handle_above_threshold`. -/
def handle_above_threshold (c : BidirectionalThreshold) : BidirectionalThreshold :=
  { c with decrease_output := c.decrease_output.activate,
           increase_output := c.increase_output.deactivate }

/-- Embedding of `BidirectionalThreshold::handle_below_threshold`. -/
def handle_below_threshold (c : BidirectionalThreshold) : BidirectionalThreshold :=
  { c with increase_output := c.increase_output.activate,
           decrease_output := c.decrease_output.deactivate }

/-- Embedding of `BidirectionalThreshold::handle_within_tolerance`. -/
def handle_within_tolerance (c : BidirectionalThreshold) : BidirectionalThreshold :=
  { c with increase_output := c.increase_output.deactivate,
           decrease_output := c.decrease_output.deactivate }

/-- Embedding of `BidirectionalThreshold::schedule_next_in_place`. -/
def schedule_next_in_place (c : BidirectionalThreshold) (time : Int) : BidirectionalThreshold :=
  { c with schedule := c.schedule.schedule_read (time + c.interval) }

/-- Embedding of the builder `BidirectionalThreshold::schedule_next` with
an explicit reference time. -/
def schedule_next (c : BidirectionalThreshold) (time : Int) : BidirectionalThreshold :=
  c.schedule_next_in_place time

/-- Embedding of `<BidirectionalThreshold as Controller>::poll`.  Note the
wildcard arm of the Rust `match` is empty (`_ => {}`): an unexpected
action is silently discarded (the event has already been moved to history
by `attempt_execution`) and the function falls through to `None`. -/
def poll (c : BidirectionalThreshold) (time : Int) :
    Option (BidirectionalThreshold × Option Message) :=
  match c.schedule.attempt_execution time with
  | (sched2, some event) =>
    match event.get_action with
    | Action.Read =>
      let c1 : BidirectionalThreshold := { c with schedule := sched2 }
      match c1.get_state with
      | some (st, c2) =>
        let c3 :=
          match st with
          | State.AboveThreshold => c2.handle_above_threshold
          | State.BelowThreshold => c2.handle_below_threshold
          | State.WithinTolerance => c2.handle_within_tolerance
        let msg :=
          match st with
          | State.AboveThreshold => "Above Threshold"
          | State.BelowThreshold => "Below Threshold"
          | State.WithinTolerance => "Within Tolerance"
        let c4 := c3.schedule_next_in_place time
        some (c4, some (Message.new (c4.name.getD "") msg event.get_timestamp c4.input.get_state))
      | none => none
    | _ => some ({ c with schedule := sched2 }, none)
  | (_, none) => some (c, none)

end BidirectionalThreshold

/-- Number of seconds in a calendar day (the UTC timeline of `chrono` has
no leap seconds). -/
def secondsPerDay : Int := 86400

/-- Time-of-day in seconds of an instant, embedding
`DateTime::naive_utc().time()` at whole-second resolution. -/
def timeOfDay (t : Int) : Int := t % secondsPerDay

/-- Midnight of the calendar day containing `t`, embedding the
`with_hour(0)`-style anchoring. -/
def atStartOfDay (t : Int) : Int := t - timeOfDay t

/-- Embedding of `controllers/timed.rs`: daily duty-cycle controller
state.  `start_time` is a `NaiveTime` as seconds of day. -/
structure TimedOutput where
  name : Option String
  output : OutputDev
  start_time : Int
  duration : Int
  scheduler : Scheduler

namespace TimedOutput

/-- Embedding of `TimedOutput::new`. -/
def new (output : OutputDev) (start_time duration : Int) : TimedOutput :=
  { name := none, output := output, start_time := start_time,
    duration := duration, scheduler := Scheduler.new }

/-- Embedding of `TimedOutput::schedule_on` (with an explicit reference
time): anchor the reference instant at `start_time` of its own calendar
day (`with_hour`/`with_minute`/`with_second`/`with_nanosecond(0)`), and
arm the `On` event today if the time-of-day is before `start_time`, else
tomorrow. -/
def schedule_on (c : TimedOutput) (time : Int) : TimedOutput :=
  let current_time := timeOfDay time
  let anchored := atStartOfDay time + c.start_time
  let start := if current_time < c.start_time then anchored else anchored + secondsPerDay
  { c with scheduler := c.scheduler.schedule_on start }

/-- Embedding of `TimedOutput::schedule_off` (with an explicit reference
time): arm the `Off` event at the reference day anchored at `start_time`,
plus `duration`. -/
def schedule_off (c : TimedOutput) (time : Int) : TimedOutput :=
  let anchored := atStartOfDay time + c.start_time
  { c with scheduler := c.scheduler.schedule_off (anchored + c.duration) }

/-- Embedding of the builder `TimedOutput::schedule_first`. -/
def schedule_first (c : TimedOutput) (time : Int) : TimedOutput :=
  c.schedule_on time

/-- Embedding of `TimedOutput::with_first` at an explicit reference
time. -/
def with_first (output : OutputDev) (start_time duration : Int) (time : Int) : TimedOutput :=
  (new output start_time duration).schedule_first time

/-- Embedding of `<TimedOutput as Controller>::poll`.  A `none` result is
the `Invalid action for timed output` panic. -/
def poll (c : TimedOutput) (time : Int) : Option (TimedOutput × Option Message) :=
  match c.scheduler.attempt_execution time with
  | (sched2, some event) =>
    let c1 : TimedOutput := { c with scheduler := sched2 }
    match event.get_action with
    | Action.On =>
      let c2 : TimedOutput := { c1 with output := c1.output.activate }
      let c3 := c2.schedule_off time
      some (c3, some (Message.new (c3.name.getD "") "Activated" time none))
    | Action.Off =>
      let c2 : TimedOutput := { c1 with output := c1.output.deactivate }
      let c3 := c2.schedule_on time
      some (c3, some (Message.new (c3.name.getD "") "Deactivated" time none))
    | Action.Read => none
  | (_, none) => some (c, none)

end TimedOutput

/-- Embedding of the type-erased `Box<dyn Controller>` over the closed
set of controller kinds in this repository. -/
inductive Ctrl where
  | threshold : Threshold → Ctrl
  | bidirectional : BidirectionalThreshold → Ctrl
  | timed : TimedOutput → Ctrl

namespace Ctrl

/-- Dispatch of `Controller::poll` over the closed controller set. -/
def poll : Ctrl → Int → Option (Ctrl × Option Message)
  | Ctrl.threshold c, time =>
    match c.poll time with
    | some (c2, m) => some (Ctrl.threshold c2, m)
    | none => none
  | Ctrl.bidirectional c, time =>
    match c.poll time with
    | some (c2, m) => some (Ctrl.bidirectional c2, m)
    | none => none
  | Ctrl.timed c, time =>
    match c.poll time with
    | some (c2, m) => some (Ctrl.timed c2, m)
    | none => none

end Ctrl

/-- Embedding of `group.rs`: insertion-ordered collection of
controllers. -/
structure ControllerGroup where
  controllers : List Ctrl

namespace ControllerGroup

/-- Embedding of `ControllerGroup::new`. -/
def new : ControllerGroup := { controllers := [] }

/-- Embedding of the builder `ControllerGroup::add_controller`. -/
def add_controller (g : ControllerGroup) (c : Ctrl) : ControllerGroup :=
  { g with controllers := g.controllers ++ [c] }

/-- Embedding of the loop body of `ControllerGroup::poll`: poll each
controller in order, pushing any produced message; a panic in one
controller (a `none` poll result) aborts the remainder. -/
def pollList : List Ctrl → Int → Option (List Ctrl × List Message)
  | [], _ => some ([], [])
  | c :: rest, time =>
    match c.poll time with
    | none => none
    | some (c2, m) =>
      match pollList rest time with
      | none => none
      | some (rest2, msgs) =>
        some (c2 :: rest2, match m with | some message => message :: msgs | none => msgs)

/-- Embedding of `ControllerGroup::poll`. -/
def poll (g : ControllerGroup) (time : Int) : Option (ControllerGroup × List Message) :=
  match pollList g.controllers time with
  | some (cs, msgs) => some ({ controllers := cs }, msgs)
  | none => none

end ControllerGroup

/-! ## Scheduler lemmas -/

/-- Characterisation of a successful `removeFirstDue` scan: the returned
event is the first due pending event in insertion order, and the returned
list is the pending list with exactly that occurrence removed. -/
theorem removeFirstDue_some_spec (t : Int) :
    ∀ (l : List Event) (e : Event) (rest : List Event),
    Scheduler.removeFirstDue l t = some (e, rest) →
    ∃ pre post, l = pre ++ e :: post ∧ rest = pre ++ post
      ∧ (∀ x ∈ pre, x.should_execute t = false) ∧ e.should_execute t = true := by
  intro l
  induction l with
  | nil => intro e rest h; simp [Scheduler.removeFirstDue] at h
  | cons a l ih =>
    intro e rest h
    rw [Scheduler.removeFirstDue] at h
    by_cases ha : a.should_execute t
    · simp only [ha, if_true, Option.some.injEq, Prod.mk.injEq] at h
      obtain ⟨he, hrest⟩ := h
      exact ⟨[], l, by simp [he], by simp [hrest], by simp, he ▸ ha⟩
    · simp only [ha, if_false, Bool.false_eq_true] at h
      cases hm : Scheduler.removeFirstDue l t with
      | none => rw [hm] at h; cases h
      | some p =>
        obtain ⟨f, rest2⟩ := p
        rw [hm] at h
        simp only [Option.some.injEq, Prod.mk.injEq] at h
        obtain ⟨he, hrest⟩ := h
        obtain ⟨pre, post, hl, hr, hpre, hdue⟩ := ih f rest2 hm
        refine ⟨a :: pre, post, ?_, ?_, ?_, he ▸ hdue⟩
        · rw [hl, he]; rfl
        · rw [← hrest, hr]; rfl
        · intro x hx
          rcases List.mem_cons.mp hx with hxa | hxp
          · subst hxa; simpa using ha
          · exact hpre x hxp

/-- C1: `attempt_execution` fires at most one event per call.  On a
successful call it removes exactly the first pending event (in insertion
order) that is due at the query time and appends it to the fired history;
the total pending+fired count is conserved by every call; and a call that
finds no due event leaves the `Scheduler` unchanged. -/
theorem c1_attempt_execution_spec (s : Scheduler) (t : Int) :
    (∀ s2 e, s.attempt_execution t = (s2, some e) →
      ∃ pre post,
        s.future_events = pre ++ e :: post
        ∧ (∀ x ∈ pre, x.should_execute t = false)
        ∧ e.should_execute t = true
        ∧ s2.future_events = pre ++ post
        ∧ s2.events = s.events ++ [e])
    ∧ (∀ s2, s.attempt_execution t = (s2, none) → s2 = s)
    ∧ (∀ s2 r, s.attempt_execution t = (s2, r) →
        s2.future_events.length + s2.events.length
          = s.future_events.length + s.events.length) := by
  refine ⟨?_, ?_, ?_⟩
  · intro s2 e h
    rw [Scheduler.attempt_execution] at h
    cases hm : Scheduler.removeFirstDue s.future_events t with
    | none => rw [hm] at h; cases h
    | some p =>
      obtain ⟨f, rest⟩ := p
      rw [hm] at h
      simp only [Prod.mk.injEq, Option.some.injEq] at h
      obtain ⟨hs2, hf⟩ := h
      subst hf
      obtain ⟨pre, post, hl, hr, hpre, hdue⟩ := removeFirstDue_some_spec t _ _ _ hm
      exact ⟨pre, post, hl, hpre, hdue, by rw [← hs2, hr], by rw [← hs2]⟩
  · intro s2 h
    rw [Scheduler.attempt_execution] at h
    cases hm : Scheduler.removeFirstDue s.future_events t with
    | none => rw [hm] at h; exact (Prod.mk.injEq .. ▸ h).1.symm ▸ rfl
    | some p => obtain ⟨f, rest⟩ := p; rw [hm] at h; cases h
  · intro s2 r h
    rw [Scheduler.attempt_execution] at h
    cases hm : Scheduler.removeFirstDue s.future_events t with
    | none =>
      rw [hm] at h
      obtain ⟨h1, _⟩ := Prod.mk.injEq .. ▸ h
      rw [← h1]
    | some p =>
      obtain ⟨f, rest⟩ := p
      rw [hm] at h
      obtain ⟨h1, _⟩ := Prod.mk.injEq .. ▸ h
      obtain ⟨pre, post, hl, hr, _, _⟩ := removeFirstDue_some_spec t _ _ _ hm
      rw [← h1]
      simp [hl, hr]
      omega

/-- Closed instance exercising `c1_attempt_execution_spec`: a scheduler
with two pending events polled between their timestamps fires exactly the
first due one and conserves the count. -/
theorem c1_attempt_execution_spec_witness :
    ∃ pre post,
      (Scheduler.new.schedule_on 5 |>.schedule_off 20).future_events
        = pre ++ Event.new Action.On 5 :: post
      ∧ (∀ x ∈ pre, x.should_execute 10 = false)
      ∧ (Event.new Action.On 5).should_execute 10 = true
      ∧ ((Scheduler.new.schedule_on 5 |>.schedule_off 20).attempt_execution 10).1.future_events
          = pre ++ post
      ∧ ((Scheduler.new.schedule_on 5 |>.schedule_off 20).attempt_execution 10).1.events
          = (Scheduler.new.schedule_on 5 |>.schedule_off 20).events ++ [Event.new Action.On 5] :=
  (c1_attempt_execution_spec (Scheduler.new.schedule_on 5 |>.schedule_off 20) 10).1
    ((Scheduler.new.schedule_on 5 |>.schedule_off 20).attempt_execution 10).1
    (Event.new Action.On 5) (by rfl)

/-- Shared lemma: a scheduler whose pending list is the single event `e`,
due at time `t`, fires exactly `e` and leaves an empty pending list. -/
theorem attempt_execution_singleton (s : Scheduler) (e : Event) (t : Int)
    (hpend : s.future_events = [e]) (hdue : e.timestamp ≤ t) :
    s.attempt_execution t = ({ future_events := [], events := s.events ++ [e] }, some e) := by
  rw [Scheduler.attempt_execution, hpend, Scheduler.removeFirstDue]
  simp [Event.should_execute, show ¬ (e.timestamp > t) by omega]

/-- Shared characterisation of a `Threshold` poll that fires a due `Read`
whose sampled text parses: classification, output command, reschedule and
emitted message. -/
theorem threshold_poll_read_spec (c : Threshold) (T t : Int) (v : Rat)
    (hpend : c.schedule.future_events = [Event.new Action.Read T])
    (hdue : T ≤ t)
    (hparse : parseF32 (c.input.callback c.input.calls) = some v) :
    ∃ c2 m, c.poll t = some (c2, some m)
      ∧ m.content = (if c.threshold < v then "Above Threshold" else "Below Threshold")
      ∧ m.timestamp = t
      ∧ m.read_state = some (c.input.callback c.input.calls)
      ∧ c2.output.get_state = some ((decide (c.threshold < v)) != c.inverted)
      ∧ c2.schedule.future_events = [Event.new Action.Read (t + c.interval)] := by
  have hexec := attempt_execution_singleton c.schedule (Event.new Action.Read T) t hpend hdue
  rw [Threshold.poll, hexec]
  simp only [Event.get_action, Event.new]
  rw [Threshold.above_threshold]
  simp only [InputDev.read, hparse]
  by_cases hv : c.threshold < v
  · simp only [hv, decide_eq_true_eq, if_true, decide_eq_true]
    cases hinv : c.inverted
    · refine ⟨_, _, rfl, ?_, ?_, ?_, ?_, ?_⟩ <;>
        simp [Threshold.handle_above_threshold, hinv, Message.new, Event.new, OutputDev.activate,
          OutputDev.get_state, InputDev.get_state, Scheduler.schedule_read, hv]
    · refine ⟨_, _, rfl, ?_, ?_, ?_, ?_, ?_⟩ <;>
        simp [Threshold.handle_above_threshold, hinv, Message.new, Event.new, OutputDev.deactivate,
          OutputDev.get_state, InputDev.get_state, Scheduler.schedule_read, hv]
  · simp only [hv, decide_eq_true_eq, if_false, decide_eq_false]
    cases hinv : c.inverted
    · refine ⟨_, _, rfl, ?_, ?_, ?_, ?_, ?_⟩ <;>
        simp [Threshold.handle_below_threshold, hinv, Message.new, Event.new, OutputDev.deactivate,
          OutputDev.get_state, InputDev.get_state, Scheduler.schedule_read, hv]
    · refine ⟨_, _, rfl, ?_, ?_, ?_, ?_, ?_⟩ <;>
        simp [Threshold.handle_below_threshold, hinv, Message.new, Event.new, OutputDev.activate,
          OutputDev.get_state, InputDev.get_state, Scheduler.schedule_read, hv]

/-- C3: on a due `Read`, a `Threshold` controller classifies the sampled
value as above exactly when it strictly exceeds the threshold, commands
the output to `above XOR inverted`, schedules exactly one next `Read` at
`t + interval`, and returns a `Message` stamped with the poll time whose
content names the classification and whose `read_state` is the sampled
text. -/
theorem c3_threshold_poll_read (c : Threshold) (T t : Int) (v : Rat)
    (hpend : c.schedule.future_events = [Event.new Action.Read T])
    (hdue : T ≤ t)
    (hparse : parseF32 (c.input.callback c.input.calls) = some v) :
    ∃ c2 m, c.poll t = some (c2, some m)
      ∧ m.content = (if c.threshold < v then "Above Threshold" else "Below Threshold")
      ∧ m.timestamp = t
      ∧ m.read_state = some (c.input.callback c.input.calls)
      ∧ c2.output.get_state = some ((decide (c.threshold < v)) != c.inverted)
      ∧ c2.schedule.future_events = [Event.new Action.Read (t + c.interval)] :=
  threshold_poll_read_spec c T t v hpend hdue hparse

/-- Closed instance exercising `c3_threshold_poll_read`: threshold 5,
sample "5.0" (equality classifies as below), non-inverted output
deactivated, next read at 11. -/
theorem c3_threshold_poll_read_witness :
    ∃ c2 m,
      (Threshold.new 5 (InputDev.new fun _ => "5.0") OutputDev.new 1 9).poll 10
        = some (c2, some m)
      ∧ m.content = (if (5 : Rat) < 5 then "Above Threshold" else "Below Threshold")
      ∧ m.timestamp = 10
      ∧ m.read_state = some ((Threshold.new 5 (InputDev.new fun _ => "5.0") OutputDev.new 1 9).input.callback
          (Threshold.new 5 (InputDev.new fun _ => "5.0") OutputDev.new 1 9).input.calls)
      ∧ c2.output.get_state = some ((decide ((5 : Rat) < 5))
          != (Threshold.new 5 (InputDev.new fun _ => "5.0") OutputDev.new 1 9).inverted)
      ∧ c2.schedule.future_events = [Event.new Action.Read (10 + (Threshold.new 5 (InputDev.new fun _ => "5.0") OutputDev.new 1 9).interval)] :=
  c3_threshold_poll_read (Threshold.new 5 (InputDev.new fun _ => "5.0") OutputDev.new 1 9)
    10 10 5 (by rfl) (by omega) (by decide)

/-- Shared lemma: the `removeFirstDue` scan finds nothing when no pending
event is due. -/
theorem removeFirstDue_none_of_not_due (t : Int) :
    ∀ (l : List Event), (∀ e ∈ l, e.should_execute t = false) →
    Scheduler.removeFirstDue l t = none := by
  intro l
  induction l with
  | nil => intro _; rfl
  | cons a l ih =>
    intro h
    rw [Scheduler.removeFirstDue]
    have ha : a.should_execute t = false := h a (List.mem_cons_self a l)
    rw [ih fun e he => h e (List.mem_cons_of_mem a he)]
    simp [ha]

/-- Shared lemma: `attempt_execution` returns `none` and keeps the state
when no pending event is due. -/
theorem attempt_execution_none_of_not_due (s : Scheduler) (t : Int)
    (h : ∀ e ∈ s.future_events, e.should_execute t = false) :
    s.attempt_execution t = (s, none) := by
  rw [Scheduler.attempt_execution, removeFirstDue_none_of_not_due t s.future_events h]

/-- Shared lemma: a `Threshold` poll with no due pending event returns the
controller unchanged and no message. -/
theorem threshold_poll_no_due (c : Threshold) (t : Int)
    (h : ∀ e ∈ c.schedule.future_events, e.should_execute t = false) :
    c.poll t = some (c, none) := by
  rw [Threshold.poll, attempt_execution_none_of_not_due c.schedule t h]

/-- Shared characterisation of a `BidirectionalThreshold` poll that fires
a due `Read` whose sampled text parses: three-way zone classification,
output commands, reschedule and emitted message (stamped with the fired
event timestamp). -/
theorem bidirectional_poll_read_spec (c : BidirectionalThreshold) (T t : Int) (v : Rat)
    (hpend : c.schedule.future_events = [Event.new Action.Read T])
    (hdue : T ≤ t)
    (hparse : parseF32 (c.input.callback c.input.calls) = some v) :
    ∃ c2 m, c.poll t = some (c2, some m)
      ∧ (c2.increase_output.get_state, c2.decrease_output.get_state)
          = (if c.threshold + c.tolerance < v then (some false, some true)
             else if v < c.threshold - c.tolerance then (some true, some false)
             else (some false, some false))
      ∧ m.content = (if c.threshold + c.tolerance < v then "Above Threshold"
             else if v < c.threshold - c.tolerance then "Below Threshold"
             else "Within Tolerance")
      ∧ m.timestamp = T
      ∧ m.read_state = some (c.input.callback c.input.calls)
      ∧ c2.schedule.future_events = [Event.new Action.Read (t + c.interval)] := by
  have hexec := attempt_execution_singleton c.schedule (Event.new Action.Read T) t hpend hdue
  rw [BidirectionalThreshold.poll, hexec]
  simp only [Event.get_action, Event.new]
  rw [BidirectionalThreshold.get_state]
  simp only [InputDev.read, hparse]
  by_cases h1 : c.threshold + c.tolerance < v
  · simp only [h1, decide_eq_true_eq, if_true, decide_eq_true]
    refine ⟨_, _, rfl, ?_, ?_, ?_, ?_, ?_⟩ <;>
      simp [BidirectionalThreshold.handle_above_threshold,
        BidirectionalThreshold.schedule_next_in_place, Message.new, Event.new, Event.get_timestamp,
        OutputDev.activate, OutputDev.deactivate, OutputDev.get_state, InputDev.get_state,
        Scheduler.schedule_read, h1]
  · simp only [h1, decide_eq_true_eq, if_false, decide_eq_false]
    by_cases h2 : v < c.threshold - c.tolerance
    · simp only [h2, decide_eq_true_eq, if_true, decide_eq_true]
      refine ⟨_, _, rfl, ?_, ?_, ?_, ?_, ?_⟩ <;>
        simp [BidirectionalThreshold.handle_below_threshold,
          BidirectionalThreshold.schedule_next_in_place, Message.new, Event.new, Event.get_timestamp,
          OutputDev.activate, OutputDev.deactivate, OutputDev.get_state, InputDev.get_state,
          Scheduler.schedule_read, h1, h2]
    · simp only [h2, decide_eq_true_eq, if_false, decide_eq_false]
      refine ⟨_, _, rfl, ?_, ?_, ?_, ?_, ?_⟩ <;>
        simp [BidirectionalThreshold.handle_within_tolerance,
          BidirectionalThreshold.schedule_next_in_place, Message.new, Event.new, Event.get_timestamp,
          OutputDev.activate, OutputDev.deactivate, OutputDev.get_state, InputDev.get_state,
          Scheduler.schedule_read, h1, h2]

/-- C4: on a due `Read`, a `BidirectionalThreshold` controller activates
the decrease output (and deactivates increase) above the tolerance band,
activates the increase output (and deactivates decrease) below the band,
deactivates both inside the band, and schedules the next `Read` at
`t + interval`. -/
theorem c4_bidirectional_poll_read (c : BidirectionalThreshold) (T t : Int) (v : Rat)
    (hpend : c.schedule.future_events = [Event.new Action.Read T])
    (hdue : T ≤ t)
    (hparse : parseF32 (c.input.callback c.input.calls) = some v) :
    ∃ c2 m, c.poll t = some (c2, some m)
      ∧ (c2.increase_output.get_state, c2.decrease_output.get_state)
          = (if c.threshold + c.tolerance < v then (some false, some true)
             else if v < c.threshold - c.tolerance then (some true, some false)
             else (some false, some false))
      ∧ c2.schedule.future_events = [Event.new Action.Read (t + c.interval)] := by
  obtain ⟨c2, m, hp, houts, _, _, _, hsched⟩ :=
    bidirectional_poll_read_spec c T t v hpend hdue hparse
  exact ⟨c2, m, hp, houts, hsched⟩

/-- Closed instance exercising `c4_bidirectional_poll_read`: threshold 10,
tolerance 1, sample "8.0" is below the band, so the increase output is
activated and the decrease output deactivated, with the next read at 11. -/
theorem c4_bidirectional_poll_read_witness :
    ∃ c2 m,
      ((BidirectionalThreshold.new 10 1 (InputDev.new fun _ => "8.0")
          OutputDev.new OutputDev.new 1).schedule_next 9).poll 10
        = some (c2, some m)
      ∧ (c2.increase_output.get_state, c2.decrease_output.get_state)
          = (if (10 : Rat) + 1 < 8 then (some false, some true)
             else if (8 : Rat) < 10 - 1 then (some true, some false)
             else (some false, some false))
      ∧ c2.schedule.future_events = [Event.new Action.Read (10 +
          ((BidirectionalThreshold.new 10 1 (InputDev.new fun _ => "8.0")
            OutputDev.new OutputDev.new 1).schedule_next 9).interval)] :=
  c4_bidirectional_poll_read
    ((BidirectionalThreshold.new 10 1 (InputDev.new fun _ => "8.0")
      OutputDev.new OutputDev.new 1).schedule_next 9)
    10 10 8 (by rfl) (by omega) (by decide)

/-- Counterexample to C2 as stated: a `BidirectionalThreshold` whose
scheduler holds a due `On` event (an action this controller does not
handle) polls normally, returning `some` with no message instead of
aborting. -/
theorem c2_counterexample :
    ∃ c2,
      ({ BidirectionalThreshold.new 10 1 (InputDev.new fun _ => "") OutputDev.new OutputDev.new 1
           with schedule := Scheduler.new.schedule_on 5 } : BidirectionalThreshold).poll 10
        = some (c2, none) :=
  ⟨_, rfl⟩

/-- C2 (amended): a due event carrying an action the controller does not
handle aborts the poll for `Threshold` (a non-`Read` action) and for
`TimedOutput` (a `Read` action); `BidirectionalThreshold`, however,
silently consumes the unexpected event (it is moved to the fired history
by `attempt_execution`) and returns normally with no message. -/
theorem c2_unexpected_action :
    (∀ (c : Threshold) (T t : Int) (a : Action), a ≠ Action.Read →
      c.schedule.future_events = [Event.new a T] → T ≤ t → c.poll t = none)
    ∧ (∀ (c : TimedOutput) (T t : Int),
      c.scheduler.future_events = [Event.new Action.Read T] → T ≤ t → c.poll t = none)
    ∧ (∀ (c : BidirectionalThreshold) (T t : Int) (a : Action), a ≠ Action.Read →
      c.schedule.future_events = [Event.new a T] → T ≤ t →
      ∃ c2, c.poll t = some (c2, none)
        ∧ c2.schedule.future_events = []
        ∧ c2.schedule.events = c.schedule.events ++ [Event.new a T]) := by
  refine ⟨?_, ?_, ?_⟩
  · intro c T t a ha hpend hdue
    have hexec := attempt_execution_singleton c.schedule (Event.new a T) t hpend hdue
    rw [Threshold.poll, hexec]
    cases a with
    | Read => exact absurd rfl ha
    | On => rfl
    | Off => rfl
  · intro c T t hpend hdue
    have hexec := attempt_execution_singleton c.scheduler (Event.new Action.Read T) t hpend hdue
    rw [TimedOutput.poll, hexec]
    rfl
  · intro c T t a ha hpend hdue
    have hexec := attempt_execution_singleton c.schedule (Event.new a T) t hpend hdue
    rw [BidirectionalThreshold.poll, hexec]
    cases a with
    | Read => exact absurd rfl ha
    | On => exact ⟨_, rfl, rfl, rfl⟩
    | Off => exact ⟨_, rfl, rfl, rfl⟩

/-- Closed instance exercising `c2_unexpected_action`: a due `On` event
aborts a `Threshold` poll, a due `Read` event aborts a `TimedOutput`
poll, and a due `Off` event is silently consumed by a
`BidirectionalThreshold` poll. -/
theorem c2_unexpected_action_witness :
    ({ Threshold.new_without_scheduled 5 (InputDev.new fun _ => "") OutputDev.new 1
         with schedule := Scheduler.new.schedule_on 5 } : Threshold).poll 10 = none
    ∧ ({ TimedOutput.new OutputDev.new 18000 43200
         with scheduler := Scheduler.new.schedule_read 5 } : TimedOutput).poll 10 = none
    ∧ (∃ c2,
        ({ BidirectionalThreshold.new 10 1 (InputDev.new fun _ => "") OutputDev.new OutputDev.new 1
             with schedule := Scheduler.new.schedule_off 5 } : BidirectionalThreshold).poll 10
          = some (c2, none)
        ∧ c2.schedule.future_events = []
        ∧ c2.schedule.events = Scheduler.new.events ++ [Event.new Action.Off 5]) :=
  ⟨c2_unexpected_action.1 _ 5 10 Action.On (by simp) rfl (by omega),
   c2_unexpected_action.2.1 _ 5 10 rfl (by omega),
   c2_unexpected_action.2.2 _ 5 10 Action.Off (by simp) rfl (by omega)⟩

/-- C8: a due `Read` whose sampled text does not parse as a number aborts
the poll for both `Threshold` and `BidirectionalThreshold`. -/
theorem c8_parse_failure_fatal :
    (∀ (c : Threshold) (T t : Int),
      c.schedule.future_events = [Event.new Action.Read T] → T ≤ t →
      parseF32 (c.input.callback c.input.calls) = none → c.poll t = none)
    ∧ (∀ (c : BidirectionalThreshold) (T t : Int),
      c.schedule.future_events = [Event.new Action.Read T] → T ≤ t →
      parseF32 (c.input.callback c.input.calls) = none → c.poll t = none) := by
  constructor
  · intro c T t hpend hdue hparse
    have hexec := attempt_execution_singleton c.schedule (Event.new Action.Read T) t hpend hdue
    rw [Threshold.poll, hexec]
    simp only [Event.get_action, Event.new]
    rw [Threshold.above_threshold]
    simp only [InputDev.read, hparse]
  · intro c T t hpend hdue hparse
    have hexec := attempt_execution_singleton c.schedule (Event.new Action.Read T) t hpend hdue
    rw [BidirectionalThreshold.poll, hexec]
    simp only [Event.get_action, Event.new]
    rw [BidirectionalThreshold.get_state]
    simp only [InputDev.read, hparse]

/-- Closed instance exercising `c8_parse_failure_fatal`: the sampled text
"garbage" parses as no number and aborts both controller kinds. -/
theorem c8_parse_failure_fatal_witness :
    ((Threshold.new 5 (InputDev.new fun _ => "garbage") OutputDev.new 1 9).poll 10 = none)
    ∧ (((BidirectionalThreshold.new 10 1 (InputDev.new fun _ => "garbage")
          OutputDev.new OutputDev.new 1).schedule_next 9).poll 10 = none) :=
  ⟨c8_parse_failure_fatal.1 _ 10 10 (by rfl) (by omega) (by decide),
   c8_parse_failure_fatal.2 _ 10 10 (by rfl) (by omega) (by decide)⟩

/-- Shared lemma: decomposition of a successful `attempt_execution`. -/
theorem attempt_execution_some_spec (s : Scheduler) (t : Int) (s2 : Scheduler) (e : Event)
    (h : s.attempt_execution t = (s2, some e)) :
    ∃ pre post, s.future_events = pre ++ e :: post ∧ s2.future_events = pre ++ post
      ∧ s2.events = s.events ++ [e]
      ∧ (∀ x ∈ pre, x.should_execute t = false) ∧ e.should_execute t = true := by
  rw [Scheduler.attempt_execution] at h
  cases hm : Scheduler.removeFirstDue s.future_events t with
  | none => rw [hm] at h; cases h
  | some p =>
    obtain ⟨f, rest⟩ := p
    rw [hm] at h
    simp only [Prod.mk.injEq, Option.some.injEq] at h
    obtain ⟨hs2, hf⟩ := h
    subst hf
    obtain ⟨pre, post, hl, hr, hpre, hdue⟩ := removeFirstDue_some_spec t _ _ _ hm
    exact ⟨pre, post, hl, by rw [← hs2, hr], by rw [← hs2], hpre, hdue⟩

/-- Shared characterisation of a `TimedOutput` poll that fires a due `On`
event: activate, emit "Activated" at the poll time, and arm the `Off`
event at the poll day anchored at `start_time` plus `duration`. -/
theorem timed_poll_on_spec (c : TimedOutput) (T t : Int)
    (hpend : c.scheduler.future_events = [Event.new Action.On T]) (hdue : T ≤ t) :
    ∃ c2 m, c.poll t = some (c2, some m)
      ∧ m.content = "Activated" ∧ m.timestamp = t
      ∧ c2.output.get_state = some true
      ∧ c2.scheduler.future_events
          = [Event.new Action.Off (atStartOfDay t + c.start_time + c.duration)]
      ∧ c2.start_time = c.start_time ∧ c2.duration = c.duration := by
  have hexec := attempt_execution_singleton c.scheduler (Event.new Action.On T) t hpend hdue
  rw [TimedOutput.poll, hexec]
  refine ⟨_, _, rfl, rfl, rfl, rfl, ?_, rfl, rfl⟩
  simp [TimedOutput.schedule_off, Scheduler.schedule_off, Event.new]

/-- Shared characterisation of a `TimedOutput` poll that fires a due
`Off` event: deactivate, emit "Deactivated" at the poll time, and re-arm
the `On` event at the next occurrence of `start_time` relative to the
poll instant (same day if the poll time-of-day is before `start_time`,
else the following day). -/
theorem timed_poll_off_spec (c : TimedOutput) (T t : Int)
    (hpend : c.scheduler.future_events = [Event.new Action.Off T]) (hdue : T ≤ t) :
    ∃ c2 m, c.poll t = some (c2, some m)
      ∧ m.content = "Deactivated" ∧ m.timestamp = t
      ∧ c2.output.get_state = some false
      ∧ c2.scheduler.future_events
          = [Event.new Action.On
              (if timeOfDay t < c.start_time then atStartOfDay t + c.start_time
               else atStartOfDay t + c.start_time + secondsPerDay)]
      ∧ c2.start_time = c.start_time ∧ c2.duration = c.duration := by
  have hexec := attempt_execution_singleton c.scheduler (Event.new Action.Off T) t hpend hdue
  rw [TimedOutput.poll, hexec]
  refine ⟨_, _, rfl, rfl, rfl, rfl, ?_, rfl, rfl⟩
  by_cases hc : timeOfDay t < c.start_time
  · simp [TimedOutput.schedule_on, Scheduler.schedule_on, Event.new, hc]
  · simp [TimedOutput.schedule_on, Scheduler.schedule_on, Event.new, hc]

/-- C9: an event fired by `attempt_execution` is moved out of the pending
list (its occurrence count drops by one) into the history, which the
scheduler never fires from; concretely, a `Threshold` with a positive
interval that fires its single due `Read` at `t` produces no second
message when polled again at the same `t`, and its state is unchanged by
the second poll. -/
theorem c9_poll_idempotent_same_instant :
    (∀ (s : Scheduler) (t : Int) (s2 : Scheduler) (e : Event),
      s.attempt_execution t = (s2, some e) →
      s2.future_events.count e + 1 = s.future_events.count e ∧ e ∈ s2.events)
    ∧ (∀ (c : Threshold) (T t : Int) (v : Rat),
      c.schedule.future_events = [Event.new Action.Read T] → T ≤ t →
      parseF32 (c.input.callback c.input.calls) = some v → 0 < c.interval →
      ∃ c2 m, c.poll t = some (c2, some m) ∧ c2.poll t = some (c2, none)) := by
  constructor
  · intro s t s2 e h
    obtain ⟨pre, post, hl, hr, hev, _, _⟩ := attempt_execution_some_spec s t s2 e h
    constructor
    · rw [hl, hr]
      simp [List.count_append, List.count_cons]
      omega
    · rw [hev]
      simp
  · intro c T t v hpend hdue hparse hpos
    obtain ⟨c2, m, hp, _, _, _, _, hsched⟩ := threshold_poll_read_spec c T t v hpend hdue hparse
    refine ⟨c2, m, hp, ?_⟩
    apply threshold_poll_no_due
    rw [hsched]
    intro e he
    simp only [List.mem_singleton] at he
    subst he
    simp [Event.should_execute, Event.new]
    omega

/-- Closed instance exercising `c9_poll_idempotent_same_instant`: the
fired event leaves the pending list of a concrete scheduler, and a
concrete `Threshold` polled twice at instant 10 fires once and then
reports nothing. -/
theorem c9_poll_idempotent_same_instant_witness :
    (((Scheduler.new.schedule_read 5).attempt_execution 10).1.future_events.count
        (Event.new Action.Read 5) + 1
      = (Scheduler.new.schedule_read 5).future_events.count (Event.new Action.Read 5)
      ∧ Event.new Action.Read 5 ∈ ((Scheduler.new.schedule_read 5).attempt_execution 10).1.events)
    ∧ (∃ c2 m,
        (Threshold.new 5 (InputDev.new fun _ => "7.5") OutputDev.new 1 9).poll 10
          = some (c2, some m)
        ∧ c2.poll 10 = some (c2, none)) :=
  ⟨c9_poll_idempotent_same_instant.1 (Scheduler.new.schedule_read 5) 10 _
      (Event.new Action.Read 5) (by rfl),
   c9_poll_idempotent_same_instant.2
      (Threshold.new 5 (InputDev.new fun _ => "7.5") OutputDev.new 1 9)
      10 10 (mkRat 75 10) (by rfl) (by omega) (by decide) (by decide)⟩

/-- C10: on a due event at poll time `t`, `Threshold` and `TimedOutput`
stamp the emitted `Message` with the poll time `t`, while
`BidirectionalThreshold` stamps it with the fired event's scheduled
timestamp `T`, which is strictly earlier than `t` whenever the poll is
late. -/
theorem c10_message_timestamp_by_kind :
    (∀ (c : Threshold) (T t : Int) (v : Rat),
      c.schedule.future_events = [Event.new Action.Read T] → T ≤ t →
      parseF32 (c.input.callback c.input.calls) = some v →
      ∃ c2 m, c.poll t = some (c2, some m) ∧ m.timestamp = t)
    ∧ (∀ (c : TimedOutput) (T t : Int),
      c.scheduler.future_events = [Event.new Action.On T] → T ≤ t →
      ∃ c2 m, c.poll t = some (c2, some m) ∧ m.timestamp = t)
    ∧ (∀ (c : BidirectionalThreshold) (T t : Int) (v : Rat),
      c.schedule.future_events = [Event.new Action.Read T] → T ≤ t →
      parseF32 (c.input.callback c.input.calls) = some v →
      ∃ c2 m, c.poll t = some (c2, some m) ∧ m.timestamp = T ∧ (T < t → m.timestamp < t)) := by
  refine ⟨?_, ?_, ?_⟩
  · intro c T t v hpend hdue hparse
    obtain ⟨c2, m, hp, _, hts, _⟩ := threshold_poll_read_spec c T t v hpend hdue hparse
    exact ⟨c2, m, hp, hts⟩
  · intro c T t hpend hdue
    obtain ⟨c2, m, hp, _, hts, _⟩ := timed_poll_on_spec c T t hpend hdue
    exact ⟨c2, m, hp, hts⟩
  · intro c T t v hpend hdue hparse
    obtain ⟨c2, m, hp, _, _, hts, _⟩ := bidirectional_poll_read_spec c T t v hpend hdue hparse
    exact ⟨c2, m, hp, hts, fun hlt => hts ▸ hlt⟩

/-- Closed instance exercising `c10_message_timestamp_by_kind` with a
late poll (event due at 10, polled at 12): `Threshold` and `TimedOutput`
messages carry 12, the `BidirectionalThreshold` message carries 10. -/
theorem c10_message_timestamp_by_kind_witness :
    (∃ c2 m,
      ({ Threshold.new_without_scheduled 5 (InputDev.new fun _ => "7.5") OutputDev.new 1
           with schedule := Scheduler.new.schedule_read 10 } : Threshold).poll 12
        = some (c2, some m) ∧ m.timestamp = 12)
    ∧ (∃ c2 m,
      ({ TimedOutput.new OutputDev.new 18000 43200
           with scheduler := Scheduler.new.schedule_on 10 } : TimedOutput).poll 12
        = some (c2, some m) ∧ m.timestamp = 12)
    ∧ (∃ c2 m,
      ({ BidirectionalThreshold.new 10 1 (InputDev.new fun _ => "7.5")
           OutputDev.new OutputDev.new 1
           with schedule := Scheduler.new.schedule_read 10 } : BidirectionalThreshold).poll 12
        = some (c2, some m) ∧ m.timestamp = 10 ∧ ((10 : Int) < 12 → m.timestamp < 12)) :=
  ⟨c10_message_timestamp_by_kind.1 _ 10 12 (mkRat 75 10) (by rfl) (by omega) (by decide),
   c10_message_timestamp_by_kind.2.1 _ 10 12 (by rfl) (by omega),
   c10_message_timestamp_by_kind.2.2 _ 10 12 (mkRat 75 10) (by rfl) (by omega) (by decide)⟩

/-- Counterexample to C5 as stated: when the pending `Off` event (armed
for 61200, i.e. day 0 at 17:00:00 with start 05:00:00 and duration 12h)
is polled late at 187200 (day 2 at 04:00:00), the firing re-arms the `On`
event at 190800 — day 2 at 05:00:00, the same calendar day as the poll —
and not at the next day's `start_time`. -/
theorem c5_counterexample :
    ∃ c2 m,
      ((TimedOutput.new OutputDev.new 18000 43200).schedule_off 17999).poll 187200
        = some (c2, some m)
      ∧ m.content = "Deactivated"
      ∧ c2.scheduler.future_events = [Event.new Action.On 190800]
      ∧ atStartOfDay 190800 = atStartOfDay 187200
      ∧ 190800 ≠ atStartOfDay 187200 + secondsPerDay + 18000 :=
  ⟨_, _, rfl, rfl, rfl, by decide, by decide⟩

/-- C5 (amended): the `On` event is armed for the next occurrence of
`start_time` (today if the reference time-of-day is before `start_time`,
else tomorrow); a due `On` firing at `t` activates the output, emits
"Activated" and arms the `Off` event at (`t`'s calendar day anchored at
`start_time`) plus `duration`; a due `Off` firing at `t` deactivates the
output, emits "Deactivated" and re-arms the `On` event at the next
occurrence of `start_time` relative to `t` (the next day exactly when
`t`'s time-of-day has reached `start_time`, as in on-time operation); and
with start 05:00:00 and duration 12h the poll sequence at 04:59:59,
05:00:00, 16:59:59, 17:00:00 yields output unset, true, true, false. -/
theorem c5_timed_output_duty_cycle :
    (∀ (output : OutputDev) (st d t : Int),
      (TimedOutput.with_first output st d t).scheduler.future_events
        = [Event.new Action.On
            (if timeOfDay t < st then atStartOfDay t + st
             else atStartOfDay t + st + secondsPerDay)])
    ∧ (∀ (c : TimedOutput) (T t : Int),
      c.scheduler.future_events = [Event.new Action.On T] → T ≤ t →
      ∃ c2 m, c.poll t = some (c2, some m)
        ∧ m.content = "Activated" ∧ c2.output.get_state = some true
        ∧ c2.scheduler.future_events
            = [Event.new Action.Off (atStartOfDay t + c.start_time + c.duration)])
    ∧ (∀ (c : TimedOutput) (T t : Int),
      c.scheduler.future_events = [Event.new Action.Off T] → T ≤ t →
      ∃ c2 m, c.poll t = some (c2, some m)
        ∧ m.content = "Deactivated" ∧ c2.output.get_state = some false
        ∧ c2.scheduler.future_events
            = [Event.new Action.On
                (if timeOfDay t < c.start_time then atStartOfDay t + c.start_time
                 else atStartOfDay t + c.start_time + secondsPerDay)])
    ∧ (∃ c1 m1 c2 m2,
        (TimedOutput.with_first OutputDev.new 18000 43200 17999).poll 17999
          = some (TimedOutput.with_first OutputDev.new 18000 43200 17999, none)
        ∧ (TimedOutput.with_first OutputDev.new 18000 43200 17999).output.get_state = none
        ∧ (TimedOutput.with_first OutputDev.new 18000 43200 17999).poll 18000
          = some (c1, some m1)
        ∧ c1.output.get_state = some true
        ∧ c1.poll 61199 = some (c1, none)
        ∧ c1.poll 61200 = some (c2, some m2)
        ∧ c2.output.get_state = some false) := by
  refine ⟨?_, ?_, ?_, ?_⟩
  · intro output st d t
    by_cases hc : timeOfDay t < st
    · simp [TimedOutput.with_first, TimedOutput.new, TimedOutput.schedule_first,
        TimedOutput.schedule_on, Scheduler.new, Scheduler.schedule_on, Event.new, hc]
    · simp [TimedOutput.with_first, TimedOutput.new, TimedOutput.schedule_first,
        TimedOutput.schedule_on, Scheduler.new, Scheduler.schedule_on, Event.new, hc]
  · intro c T t hpend hdue
    obtain ⟨c2, m, hp, hcon, _, hout, hsched, _, _⟩ := timed_poll_on_spec c T t hpend hdue
    exact ⟨c2, m, hp, hcon, hout, hsched⟩
  · intro c T t hpend hdue
    obtain ⟨c2, m, hp, hcon, _, hout, hsched, _, _⟩ := timed_poll_off_spec c T t hpend hdue
    exact ⟨c2, m, hp, hcon, hout, hsched⟩
  · exact ⟨_, _, _, _, rfl, rfl, rfl, rfl, rfl, rfl, rfl⟩

/-- Closed instance exercising `c5_timed_output_duty_cycle`: the initial
arming at reference 17999 lands on 18000 (the same day, since
04:59:59 < 05:00:00), a due `On` at 18000 arms the `Off` at 61200, and a
due `Off` at 61200 re-arms the next `On` at 104400 (the following day,
since 17:00:00 is past 05:00:00). -/
theorem c5_timed_output_duty_cycle_witness :
    ((TimedOutput.with_first OutputDev.new 18000 43200 17999).scheduler.future_events
      = [Event.new Action.On
          (if timeOfDay 17999 < 18000 then atStartOfDay 17999 + 18000
           else atStartOfDay 17999 + 18000 + secondsPerDay)])
    ∧ (∃ c2 m,
        (TimedOutput.with_first OutputDev.new 18000 43200 17999).poll 18000
          = some (c2, some m)
        ∧ m.content = "Activated" ∧ c2.output.get_state = some true
        ∧ c2.scheduler.future_events
            = [Event.new Action.Off (atStartOfDay 18000
                + (TimedOutput.with_first OutputDev.new 18000 43200 17999).start_time
                + (TimedOutput.with_first OutputDev.new 18000 43200 17999).duration)])
    ∧ (∃ c2 m,
        ((TimedOutput.new OutputDev.new 18000 43200).schedule_off 17999).poll 61200
          = some (c2, some m)
        ∧ m.content = "Deactivated" ∧ c2.output.get_state = some false
        ∧ c2.scheduler.future_events
            = [Event.new Action.On
                (if timeOfDay 61200 < ((TimedOutput.new OutputDev.new 18000 43200).schedule_off 17999).start_time
                 then atStartOfDay 61200 + ((TimedOutput.new OutputDev.new 18000 43200).schedule_off 17999).start_time
                 else atStartOfDay 61200 + ((TimedOutput.new OutputDev.new 18000 43200).schedule_off 17999).start_time
                   + secondsPerDay)]) :=
  ⟨c5_timed_output_duty_cycle.1 OutputDev.new 18000 43200 17999,
   c5_timed_output_duty_cycle.2.1 (TimedOutput.with_first OutputDev.new 18000 43200 17999)
     18000 18000 (by decide) (by omega),
   c5_timed_output_duty_cycle.2.2.1 ((TimedOutput.new OutputDev.new 18000 43200).schedule_off 17999)
     61200 61200 (by decide) (by omega)⟩

/-- Shared lemma: the `ControllerGroup` polling loop returns exactly the
per-controller poll results in insertion order — the produced messages
are the `filterMap` of each member's message and the updated members are
the `map` of each member's updated state. -/
theorem pollList_spec (t : Int) :
    ∀ (l l2 : List Ctrl) (msgs : List Message),
    ControllerGroup.pollList l t = some (l2, msgs) →
    msgs = l.filterMap (fun c => match c.poll t with
        | some (_, m) => m
        | none => none)
    ∧ l2 = l.map (fun c => match c.poll t with
        | some (c2, _) => c2
        | none => c) := by
  intro l
  induction l with
  | nil =>
    intro l2 msgs h
    rw [ControllerGroup.pollList] at h
    simp only [Option.some.injEq, Prod.mk.injEq] at h
    simp [← h.1, ← h.2]
  | cons c rest ih =>
    intro l2 msgs h
    rw [ControllerGroup.pollList] at h
    cases hc : c.poll t with
    | none => rw [hc] at h; cases h
    | some p =>
      obtain ⟨c2, m⟩ := p
      rw [hc] at h
      cases hr : ControllerGroup.pollList rest t with
      | none => rw [hr] at h; cases h
      | some q =>
        obtain ⟨rest2, msgs2⟩ := q
        rw [hr] at h
        simp only [Option.some.injEq, Prod.mk.injEq] at h
        obtain ⟨hl2, hmsgs⟩ := h
        obtain ⟨ihm, ihl⟩ := ih rest2 msgs2 hr
        constructor
        · rw [← hmsgs]
          cases m with
          | some msg => simp [List.filterMap_cons, hc, ihm]
          | none => simp [List.filterMap_cons, hc, ihm]
        · rw [← hl2]
          simp [hc, ihl]

/-- C6: `ControllerGroup.poll` polls each member controller in insertion
order and returns exactly the non-empty messages they produce, in that
same order; non-firing controllers (whose poll yields no message)
contribute nothing. -/
theorem c6_group_poll_order (g : ControllerGroup) (t : Int) (g2 : ControllerGroup)
    (msgs : List Message) (h : g.poll t = some (g2, msgs)) :
    msgs = g.controllers.filterMap (fun c => match c.poll t with
        | some (_, m) => m
        | none => none)
    ∧ g2.controllers = g.controllers.map (fun c => match c.poll t with
        | some (c2, _) => c2
        | none => c) := by
  rw [ControllerGroup.poll] at h
  cases hp : ControllerGroup.pollList g.controllers t with
  | none => rw [hp] at h; cases h
  | some q =>
    obtain ⟨cs, ms⟩ := q
    rw [hp] at h
    simp only [Option.some.injEq, Prod.mk.injEq] at h
    obtain ⟨hg2, hm⟩ := h
    obtain ⟨h1, h2⟩ := pollList_spec t g.controllers cs ms hp
    exact ⟨hm ▸ h1, by rw [← hg2]; exact h2⟩

/-- Closed instance exercising `c6_group_poll_order`: a group of two
`TimedOutput` controllers, the first due and the second not, polled at
10, returns exactly the first controller's message. -/
theorem c6_group_poll_order_witness :
    ∃ g2 msgs,
      ((ControllerGroup.new.add_controller
          (Ctrl.timed ({ TimedOutput.new OutputDev.new 18000 43200
            with scheduler := Scheduler.new.schedule_on 5 }))).add_controller
          (Ctrl.timed ({ TimedOutput.new OutputDev.new 18000 43200
            with scheduler := Scheduler.new.schedule_on 100 }))).poll 10
        = some (g2, msgs)
      ∧ msgs
        = ((ControllerGroup.new.add_controller
            (Ctrl.timed ({ TimedOutput.new OutputDev.new 18000 43200
              with scheduler := Scheduler.new.schedule_on 5 }))).add_controller
            (Ctrl.timed ({ TimedOutput.new OutputDev.new 18000 43200
              with scheduler := Scheduler.new.schedule_on 100 }))).controllers.filterMap
            (fun c => match c.poll 10 with
              | some (_, m) => m
              | none => none)
      ∧ g2.controllers
        = ((ControllerGroup.new.add_controller
            (Ctrl.timed ({ TimedOutput.new OutputDev.new 18000 43200
              with scheduler := Scheduler.new.schedule_on 5 }))).add_controller
            (Ctrl.timed ({ TimedOutput.new OutputDev.new 18000 43200
              with scheduler := Scheduler.new.schedule_on 100 }))).controllers.map
            (fun c => match c.poll 10 with
              | some (c2, _) => c2
              | none => c) :=
  ⟨_, _, rfl,
   c6_group_poll_order _ 10 _ _ rfl⟩

/-- C7: `should_execute` is a non-strict due-check: it holds exactly when
the query time has reached the event timestamp, and it is monotone
(non-decreasing) in the query time. -/
theorem c7_should_execute_nonstrict_monotone (e : Event) (t t1 t2 : Int) :
    (e.should_execute t = true ↔ e.timestamp ≤ t)
    ∧ (t1 ≤ t2 → e.should_execute t1 = true → e.should_execute t2 = true) := by
  constructor
  · rw [Event.should_execute]
    split
    · constructor
      · intro h; cases h
      · intro h; omega
    · constructor
      · intro _; omega
      · intro _; rfl
  · intro hle h1
    rw [Event.should_execute] at h1 ⊢
    split at h1
    · cases h1
    · split
      · omega
      · rfl

/-- Closed instance exercising `c7_should_execute_nonstrict_monotone` at
timestamp 5 with query times 5 and 7. -/
theorem c7_should_execute_nonstrict_monotone_witness :
    ((Event.new Action.Read 5).should_execute 5 = true ↔ (Event.new Action.Read 5).timestamp ≤ 5)
    ∧ ((5 : Int) ≤ 7 → (Event.new Action.Read 5).should_execute 5 = true →
        (Event.new Action.Read 5).should_execute 7 = true) :=
  c7_should_execute_nonstrict_monotone (Event.new Action.Read 5) 5 5 7

end Equilibrium
